import Mathlib

/-!
A shallow embedding of the tsm-language-server core (src/parser.rs and
src/backend.rs) and proofs about it.

Source text is modelled as a list of characters; byte offsets coincide with
list indices (the texts of interest are ASCII). The tree-sitter engine and
the fuzzy_matcher crate are external collaborators (spec section 6), not code
of this repository; they are modelled by the structures below. A grammar
fact used throughout: a node of kind string of the tree-sitter TypeScript
grammar spans its source text from the opening quote character to the closing
quote character inclusive (the quotes are anonymous children of the string
node), which is why node_text trims quote characters from the slice and why
the quickfix wraps its replacement text in quotes.
-/

namespace TsmLs

/-- tree_sitter::Point: row and column of a source position. -/
structure TSPoint where
  row : Nat
  column : Nat
deriving DecidableEq

/-- tree_sitter::Range: byte offsets and points of a node's extent. -/
structure TSRange where
  start_byte : Nat
  end_byte : Nat
  start_point : TSPoint
  end_point : TSPoint
deriving DecidableEq

/-- A tree-sitter syntax node, reduced to the data the server reads from it:
its source range. -/
structure TSNode where
  range : TSRange
deriving DecidableEq

/-- One capture of a query match (tree_sitter::QueryCapture): the capture
index and the captured node. -/
structure QueryCapture where
  index : Nat
  node : TSNode
deriving DecidableEq

/-- One match of the structural query (tree_sitter::QueryMatch). -/
structure QueryMatch where
  captures : List QueryCapture
deriving DecidableEq

/-- Capture index of the @id capture of the query in parse_code (the first
capture registered in the pattern). -/
def id_index : Nat := 0

/-- Capture index of the @item capture of the query in parse_code
(capture_index_for_name of item). -/
def array_item_index : Nat := 1

/-- A variable declarator whose initializer is an array literal, as matched by
the query pattern of parse_code: the identifier text, the identifier node, and
the string nodes of the array elements in document order. -/
structure TSDecl where
  name : List Char
  nameNode : TSNode
  strings : List TSNode
deriving DecidableEq

/-- Modelled from the spec: the external query engine (tree-sitter, an
external collaborator, spec sections 4.1 and 6) run on the pattern of
parse_code over a parsed tree, given by its declarators in document order.
For each declarator whose identifier equals folders (the #eq? predicate), the
pattern produces one match per string element of its array value, in document
order, each match carrying the @id and @item captures. -/
def ts_query (decls : List TSDecl) : List QueryMatch :=
  decls.flatMap fun d =>
    if d.name = ("folders".toList) then
      d.strings.map (fun s => ⟨[⟨id_index, d.nameNode⟩, ⟨array_item_index, s⟩]⟩)
    else []

/-- Byte slice src[a..b] of the source text. -/
def strSlice (src : List Char) (a b : Nat) : List Char :=
  (src.drop a).take (b - a)

/-- Rust str::trim_start_matches for a single-character pattern. -/
def trim_start_matches (c : Char) (s : List Char) : List Char :=
  s.dropWhile (fun x => x = c)

/-- Rust str::trim_end_matches for a single-character pattern. -/
def trim_end_matches (c : Char) (s : List Char) : List Char :=
  (s.reverse.dropWhile (fun x => x = c)).reverse

/-- Rust str::trim_matches for a single-character pattern: removes all leading
and all trailing occurrences of the character. -/
def trim_matches (c : Char) (s : List Char) : List Char :=
  trim_end_matches c (trim_start_matches c s)

/-- parser.rs PositionalText: a literal's text and the range of its node. -/
structure PositionalText where
  text : List Char
  range : TSRange
deriving DecidableEq

/-- Panic of a Rust unwrap or expect on a missing value. -/
inductive PanicE
| unwrapNone
deriving DecidableEq

instance {E A : Type} [DecidableEq E] [DecidableEq A] : DecidableEq (Except E A) := fun x y =>
  match x, y with
  | .ok a, .ok b =>
    if h : a = b then isTrue (by rw [h]) else isFalse (fun hc => h (by cases hc; rfl))
  | .ok _, .error _ => isFalse (fun hc => Except.noConfusion hc)
  | .error _, .ok _ => isFalse (fun hc => Except.noConfusion hc)
  | .error e, .error f =>
    if h : e = f then isTrue (by rw [h]) else isFalse (fun hc => h (by cases hc; rfl))

/-- Rust Option::unwrap: the value on Some, a panic on None. -/
def unwrapO {A : Type} : Option A → Except PanicE A
  | some a => .ok a
  | none => .error .unwrapNone

namespace LspParser

/-- parser.rs LspParser::node_text: slice the node's byte range out of the
source and trim double-quote characters from both ends of the slice. -/
def node_text (node : TSNode) (src : List Char) : List Char :=
  trim_matches '"' (strSlice src node.range.start_byte node.range.end_byte)

/-- parser.rs LspParser::node_string: delegates to node_text. -/
def node_string (node : TSNode) (src : List Char) : List Char :=
  node_text node src

/-- The match-processing tail of parse_code: for every query match, keep the
captures with the @item index and map each to a PositionalText carrying the
node's trimmed text and the node's range. -/
def collect_literals (found_matches : List QueryMatch) (source_code : List Char) :
    List PositionalText :=
  found_matches.flatMap fun m =>
    (m.captures.filter (fun cap => cap.index == array_item_index)).map
      (fun cap => { text := node_string cap.node source_code, range := cap.node.range })

/-- parser.rs LspParser::parse_code on a successfully parsed tree, given by
its declarators: run the query and collect the @item captures. -/
def parse_code_tree (decls : List TSDecl) (source_code : List Char) :
    List PositionalText :=
  collect_literals (ts_query decls) source_code

/-- parser.rs LspParser::parse_code including the unwrap of the parse result:
when the external parser produced no tree the unwrap panics; otherwise the
query results are collected. -/
def parse_code (parseResult : Option (List TSDecl)) (source_code : List Char) :
    Except PanicE (List PositionalText) :=
  match parseResult with
  | none => .error .unwrapNone
  | some decls => .ok (parse_code_tree decls source_code)

end LspParser

/-- lsp_types::Position. -/
structure Position where
  line : Nat
  character : Nat
deriving DecidableEq

/-- lsp_types::Range; endPos is the field named end in lsp_types. -/
structure LspRange where
  start : Position
  endPos : Position
deriving DecidableEq

/-- backend.rs: the From conversion of MyRange into lsp_types::Range, copying
the rows and columns of the tree-sitter points. -/
def MyRange.toLspRange (value : TSRange) : LspRange :=
  { start := { line := value.start_point.row, character := value.start_point.column }
    endPos := { line := value.end_point.row, character := value.end_point.column } }

/-- serde_json::Value, reduced to what code_action inspects: a string value,
or any non-string value. -/
inductive JsonValue
| str : List Char → JsonValue
| nonString : JsonValue
deriving DecidableEq

/-- serde_json::Value::as_str. -/
def JsonValue.as_str : JsonValue → Option (List Char)
  | .str s => some s
  | .nonString => none

/-- lsp_types::DiagnosticSeverity::ERROR. -/
def severity_error : Nat := 1

/-- lsp_types::Diagnostic, reduced to the fields the server sets. -/
structure Diagnostic where
  range : LspRange
  severity : Option Nat
  code : Option (List Char)
  source : Option (List Char)
  message : List Char
  data : Option JsonValue
deriving DecidableEq

/-- Result of fs::read_dir as get_files consumes it: on success the list of
per-entry results, each successful entry carrying the entry's file name
(after to_string_lossy); on failure an error code. -/
abbrev ReadDirResult := Except Nat (List (Except Nat (List Char)))

/-- lsp_types::TextEdit. -/
structure TextEdit where
  range : LspRange
  new_text : List Char
deriving DecidableEq

/-- lsp_types::CodeAction, reduced to the fields the server sets; edit is the
edit list of the single-uri WorkspaceEdit. -/
structure CodeAction where
  title : List Char
  kind : Option (List Char)
  diagnostics : Option (List Diagnostic)
  edit : Option (List TextEdit)
deriving DecidableEq

/-- lsp_types::CompletionItemKind::FOLDER. -/
def completion_item_kind_folder : Nat := 19

/-- lsp_types::CompletionItem, reduced to the fields the server sets. -/
structure CompletionItem where
  label : List Char
  detail : Option (List Char)
  kind : Option Nat
  insert_text : Option (List Char)
deriving DecidableEq

/-- Is pat a subsequence of the second list (the characters of pat occur in it,
in order)? -/
def isSubseqOf (pat : List Char) (choice : List Char) : Bool :=
  match pat, choice with
  | [], _ => true
  | _ :: _, [] => false
  | a :: as, b :: bs => if a = b then isSubseqOf as bs else isSubseqOf (a :: as) bs

/-- Modelled from the spec: the external fuzzy-subsequence scoring primitive
consumed by get_best_matches (SkimMatcherV2::fuzzy_match of the fuzzy_matcher
crate, an external collaborator whose code is not part of this repository;
spec sections 4.5 and 6). It scores a candidate (choice) against a query
(pattern): a candidate matches exactly when the pattern's characters occur in
order inside it, candidates with zero match yield none and are excluded, and
the score grows with lexical closeness. The concrete score value is irrelevant
to the claims settled here; matching compares exact characters, as spec
section 3 requires pure string comparison without case folding. An empty
pattern matches every candidate. -/
def fuzzy_match (choice : List Char) (pattern : List Char) : Option Int :=
  if isSubseqOf pattern choice then
    some (Int.ofNat (2 * pattern.length) - Int.ofNat choice.length)
  else
    none

namespace Backend

/-- backend.rs Backend::get_files: list the directory; on success keep the
names of the entries that were read successfully (filter_map over the
per-entry results); on any listing error return the empty vector. -/
def get_files (rd : ReadDirResult) : List (List Char) :=
  match rd with
  | .ok paths => paths.filterMap (fun e => e.toOption)
  | .error _ => []

/-- backend.rs Backend::perform_diagnostics: parse the source, list the
candidate directory, and emit one ERROR diagnostic for every extracted
literal whose text is not contained in the listed names: range converted from
the literal's range, code 100, source tsm-language-server, a message naming
the invalid text and the configured directory, and data equal to the
literal's text as a JSON string. parseResult is the tree the external parser
produces for source_code; suggestionsdir is the configured directory. -/
def perform_diagnostics (parseResult : Option (List TSDecl)) (source_code : List Char)
    (rd : ReadDirResult) (suggestionsdir : List Char) : Except PanicE (List Diagnostic) := do
  let used_folders ← LspParser.parse_code parseResult source_code
  let available_folders := get_files rd
  pure ((used_folders.filter (fun u => !available_folders.contains u.text)).map
    (fun invalid =>
      { range := MyRange.toLspRange invalid.range
        severity := some severity_error
        code := some ("100".toList)
        source := some ("tsm-language-server".toList)
        message := ("'".toList) ++ invalid.text ++
          ("' is not a valid folder, valid folders are those in '".toList) ++
          suggestionsdir ++ ("'".toList)
        data := some (.str invalid.text) }))

/-- backend.rs Backend::get_best_matches, with the external scoring primitive
as a parameter: score every candidate against user_input, drop the candidates
with no match (filter_map), sort the scored candidates descending by score
(Vec::sort_by with comparator b.score.cmp(a.score); Vec::sort_by is a stable
sort, and a stable sort under a total preorder has a unique result, so it is
modelled by the stable insertion sort under the relation second components
descending), keep the first top_n and return their names. -/
def get_best_matches (matcher : List Char → List Char → Option Int)
    (user_input : List Char) (possible_matches : List (List Char)) (top_n : Nat) :
    List (List Char) :=
  let matches_with_scores := possible_matches.filterMap
    (fun s => (matcher s user_input).map (fun score => (s, score)))
  let sorted := matches_with_scores.insertionSort (fun a b => b.2 ≤ a.2)
  (sorted.take top_n).map (fun p => p.1)

/-- backend.rs ConvertToCompletionItem for String: CompletionItem::new_simple
with the name as label and Directory as detail, kind FOLDER, and insert_text
set to the bare label. -/
def to_completionitem (s : List Char) : Option CompletionItem :=
  some { label := s, detail := some ("Directory".toList),
         kind := some completion_item_kind_folder, insert_text := some s }

/-- backend.rs Backend::completion. stored is the document-store entry for
the requested uri: none when the store holds no entry (the handler answers
Ok(None)); otherwise the stored text paired with the tree the external parser
produces for it. Parses the text, searches for an extracted literal whose
range contains the cursor strictly (row equal to the range's start row,
column strictly between the range's start and end columns), and when one is
found answers with one item per listed directory entry (to_completionitem,
unwrapped); otherwise answers none. -/
def completion (stored : Option (List Char × Option (List TSDecl)))
    (pos : Position) (rd : ReadDirResult) :
    Except PanicE (Option (List CompletionItem)) := do
  match stored with
  | none => pure none
  | some (content, parseResult) =>
    let all_items ← LspParser.parse_code parseResult content
    match all_items.find? (fun item =>
        decide (item.range.start_point.row = pos.line ∧
          item.range.start_point.column < pos.character ∧
          item.range.end_point.column > pos.character)) with
    | none => pure none
    | some _item_at_position =>
      let completions ← (get_files rd).mapM (fun name => unwrapO (to_completionitem name))
      pure (some completions)

/-- The quickfix CodeAction that the code_action loop pushes for one retained
match of one diagnostic: an edit replacing the diagnostic's range with the
candidate wrapped in quote characters, a title naming the candidate, the
quickfix kind, and the originating diagnostic attached. -/
def quickfix_action (diagnostic : Diagnostic) (best_match : List Char) : CodeAction :=
  { title := ("Use folder ".toList) ++ best_match
    kind := some ("quickfix".toList)
    diagnostics := some [diagnostic]
    edit := some [{ range := diagnostic.range
                    new_text := ('"' :: best_match) ++ ['"'] }] }

/-- The for-loop of backend.rs Backend::code_action over the context
diagnostics, in order: for each diagnostic, read its data payload (defaulting
a missing payload to the JSON string of the empty string), unwrap it as a
string (a panic when the payload is present but not a string, aborting the
whole handler), rank the candidates against it with get_best_matches, and
push one quickfix action per retained match. -/
def code_action_loop (folders : List (List Char)) :
    List Diagnostic → Except PanicE (List CodeAction)
  | [] => .ok []
  | diagnostic :: rest => do
    let data := diagnostic.data.getD (.str ("".toList))
    let user_input ← unwrapO data.as_str
    let best_matches := get_best_matches fuzzy_match user_input folders 15
    let tail ← code_action_loop folders rest
    pure (best_matches.map (quickfix_action diagnostic) ++ tail)

/-- backend.rs Backend::code_action: list the candidate directory once, run
the loop over the diagnostics of the request context, and answer
Ok(Some(actions)). -/
def code_action (context_diagnostics : List Diagnostic) (rd : ReadDirResult) :
    Except PanicE (Option (List CodeAction)) := do
  let folders := get_files rd
  let actions ← code_action_loop folders context_diagnostics
  pure (some actions)

end Backend

/-- The grammar guarantee for a captured string node (tree-sitter TypeScript
grammar, an external collaborator assumed correct, spec section 6): the node
lies inside the source, is at least two characters wide, and its source slice
starts with the opening quote character and ends with the closing quote
character. -/
def StringNodeWF (src : List Char) (n : TSNode) : Prop :=
  n.range.end_byte ≤ src.length ∧
  n.range.start_byte + 2 ≤ n.range.end_byte ∧
  (strSlice src n.range.start_byte n.range.end_byte).head? = some '"' ∧
  (strSlice src n.range.start_byte n.range.end_byte).getLast? = some '"'

instance (src : List Char) (n : TSNode) : Decidable (StringNodeWF src n) := by
  unfold StringNodeWF; infer_instance

/-- Scenario A source text of spec section 8. -/
def srcA : List Char := ("export const folders = [\"dir_a\", \"dir_b\"];").toList

/-- The tree the external parser produces for srcA, reduced to the matching
declarator: identifier folders at bytes 13 to 20, string nodes (quotes
included, per the grammar) at bytes 24 to 31 and 33 to 40, all on row 0 with
columns equal to bytes. -/
def declsA : List TSDecl :=
  [{ name := ("folders".toList)
     nameNode := ⟨⟨13, 20, ⟨0, 13⟩, ⟨0, 20⟩⟩⟩
     strings := [⟨⟨24, 31, ⟨0, 24⟩, ⟨0, 31⟩⟩⟩, ⟨⟨33, 40, ⟨0, 33⟩, ⟨0, 40⟩⟩⟩] }]

/-- Scenario A candidate directory listing: entries dir_a and dir_c. -/
def rdAC : ReadDirResult := .ok [.ok ("dir_a".toList), .ok ("dir_c".toList)]

end TsmLs

namespace TsmLs

theorem collect_literals_append (a b : List QueryMatch) (src : List Char) :
    LspParser.collect_literals (a ++ b) src =
      LspParser.collect_literals a src ++ LspParser.collect_literals b src := by
  simp [LspParser.collect_literals]

theorem collect_literals_item_matches (nodes : List TSNode) (nn : TSNode) (src : List Char) :
    LspParser.collect_literals
      (nodes.map (fun s => ⟨[⟨id_index, nn⟩, ⟨array_item_index, s⟩]⟩)) src =
      nodes.map (fun n => ⟨LspParser.node_string n src, n.range⟩) := by
  induction nodes with
  | nil => rfl
  | cons n ns ih =>
    simp only [List.map_cons, LspParser.collect_literals, List.flatMap_cons] at ih ⊢
    rw [ih]
    simp [List.filter, id_index, array_item_index]

theorem parse_code_tree_eq (decls : List TSDecl) (src : List Char) :
    LspParser.parse_code_tree decls src = decls.flatMap (fun d =>
      if d.name = ("folders".toList) then
        d.strings.map (fun n => ⟨LspParser.node_string n src, n.range⟩)
      else []) := by
  induction decls with
  | nil => rfl
  | cons d ds ih =>
    simp only [LspParser.parse_code_tree, ts_query, List.flatMap_cons] at ih ⊢
    rw [collect_literals_append, ih]
    congr 1
    split
    · exact collect_literals_item_matches _ _ _
    · rfl

theorem mem_parse_code_tree {src : List Char} {lit : PositionalText} {decls : List TSDecl} :
    lit ∈ LspParser.parse_code_tree decls src ↔
      ∃ d ∈ decls, d.name = ("folders".toList) ∧
        ∃ n ∈ d.strings, lit = ⟨LspParser.node_string n src, n.range⟩ := by
  rw [parse_code_tree_eq]
  rw [List.mem_flatMap]
  apply exists_congr; intro d
  by_cases h : d.name = ("folders".toList) <;> simp [h, eq_comm]

end TsmLs

namespace TsmLs

theorem head?_dropWhile_ne {p : Char → Bool} {l : List Char} {x : Char}
    (h : (l.dropWhile p).head? = some x) : p x = false := by
  rcases hd : l.dropWhile p with _ | ⟨y, ys⟩
  · rw [hd] at h; cases h
  · have hw : l.dropWhile p ≠ [] := by rw [hd]; simp
    have hy := List.head_dropWhile_not p l hw
    have hxy : (l.dropWhile p).head hw = x := by
      have := List.head?_eq_head hw
      rw [h] at this; exact (Option.some_inj.mp this.symm)
    rw [hxy] at hy; exact hy

theorem trim_start_matches_spec (c : Char) (s : List Char) :
    ∃ a, s = List.replicate a c ++ trim_start_matches c s := by
  refine ⟨(s.takeWhile (fun x => x = c)).length, ?_⟩
  unfold trim_start_matches
  conv_lhs => rw [← List.takeWhile_append_dropWhile (p := fun x => x = c) (l := s)]
  congr 1
  apply List.eq_replicate_of_mem
  intro b hb
  have := List.mem_takeWhile_imp hb
  simpa using this

theorem trim_end_matches_spec (c : Char) (s : List Char) :
    ∃ b, s = trim_end_matches c s ++ List.replicate b c := by
  refine ⟨(s.reverse.takeWhile (fun x => x = c)).length, ?_⟩
  unfold trim_end_matches
  conv_lhs => rw [← List.reverse_reverse s,
    ← List.takeWhile_append_dropWhile (p := fun x => x = c) (l := s.reverse)]
  rw [List.reverse_append]
  congr 1
  rw [show ∀ t : List Char, t.length = t.reverse.length by intro t; simp]
  apply List.eq_replicate_of_mem
  intro b hb
  rw [List.mem_reverse] at hb
  have := List.mem_takeWhile_imp hb
  simpa using this

theorem trim_matches_decomp (c : Char) (s : List Char) :
    ∃ a b, s = List.replicate a c ++ trim_matches c s ++ List.replicate b c := by
  obtain ⟨a, ha⟩ := trim_start_matches_spec c s
  obtain ⟨b, hb⟩ := trim_end_matches_spec c (trim_start_matches c s)
  refine ⟨a, b, ?_⟩
  rw [List.append_assoc]
  rw [show trim_matches c s = trim_end_matches c (trim_start_matches c s) from rfl]
  rw [← hb, ← ha]

theorem trim_matches_head_ne (c : Char) (s : List Char) {x : Char}
    (h : (trim_matches c s).head? = some x) : x ≠ c := by
  have hsub : trim_matches c s =
      ((trim_start_matches c s).reverse.dropWhile (fun y => y = c)).reverse := rfl
  obtain ⟨b, hb⟩ := trim_end_matches_spec c (trim_start_matches c s)
  rcases he : trim_matches c s with _ | ⟨y, ys⟩
  · rw [he] at h; cases h
  · rw [he] at h
    have hy : y = x := by simpa using h
    have hhead : (trim_start_matches c s).head? = some y := by
      have : trim_start_matches c s = trim_matches c s ++ List.replicate b c := hb
      rw [he] at this; rw [this]; simp
    have := head?_dropWhile_ne (p := fun z => z = c) (l := s) hhead
    rw [hy] at this; simpa using this

theorem trim_matches_getLast_ne (c : Char) (s : List Char) {x : Char}
    (h : (trim_matches c s).getLast? = some x) : x ≠ c := by
  have hsub : trim_matches c s =
      ((trim_start_matches c s).reverse.dropWhile (fun y => y = c)).reverse := rfl
  rw [hsub, List.getLast?_reverse] at h
  have := head?_dropWhile_ne (p := fun z => z = c)
    (l := (trim_start_matches c s).reverse) h
  simpa using this

end TsmLs

namespace TsmLs

/-- C10: for every matched string-literal node, the extracted text equals the
node's source slice with all leading and all trailing double-quote characters
removed: the slice decomposes as a run of leading quotes, the extracted text,
and a run of trailing quotes, and the extracted text neither starts nor ends
with a quote character. Consequently not just the single enclosing pair is
stripped: a literal whose enclosed content itself starts or ends with a quote
character has those content characters stripped as well, as the concrete
five-character source of two quote pairs around the letter a shows — its
extracted text is just the letter a. -/
theorem C10_trim_all_quotes :
    (∀ (node : TSNode) (src : List Char), ∃ a b : Nat,
      strSlice src node.range.start_byte node.range.end_byte =
        List.replicate a '"' ++ LspParser.node_text node src ++ List.replicate b '"' ∧
      (∀ x, (LspParser.node_text node src).head? = some x → x ≠ '"') ∧
      (∀ x, (LspParser.node_text node src).getLast? = some x → x ≠ '"')) ∧
    LspParser.node_text ⟨⟨0, 5, ⟨0, 0⟩, ⟨0, 5⟩⟩⟩ (("\"\"a\"\"").toList) = ['a'] := by
  constructor
  · intro node src
    obtain ⟨a, b, hab⟩ := trim_matches_decomp '"'
      (strSlice src node.range.start_byte node.range.end_byte)
    exact ⟨a, b, hab, fun x hx => trim_matches_head_ne _ _ hx,
      fun x hx => trim_matches_getLast_ne _ _ hx⟩
  · decide

/-- Witness for C10: the decomposition evaluated at the concrete
five-character source. -/
theorem C10_witness :
    ∃ a b : Nat,
      strSlice (("\"\"a\"\"").toList) 0 5 =
        List.replicate a '"' ++
          LspParser.node_text ⟨⟨0, 5, ⟨0, 0⟩, ⟨0, 5⟩⟩⟩ (("\"\"a\"\"").toList) ++
          List.replicate b '"' ∧
      (∀ x, (LspParser.node_text ⟨⟨0, 5, ⟨0, 0⟩, ⟨0, 5⟩⟩⟩
        (("\"\"a\"\"").toList)).head? = some x → x ≠ '"') ∧
      (∀ x, (LspParser.node_text ⟨⟨0, 5, ⟨0, 0⟩, ⟨0, 5⟩⟩⟩
        (("\"\"a\"\"").toList)).getLast? = some x → x ≠ '"') :=
  C10_trim_all_quotes.1 ⟨⟨0, 5, ⟨0, 0⟩, ⟨0, 5⟩⟩⟩ (("\"\"a\"\"").toList)

/-- C1 (amended): every extracted PositionalLiteral's source range spans the
entire string literal including both enclosing quote characters — under the
grammar guarantee for captured string nodes, the slice of the source at each
extracted literal's range is at least two characters wide and begins and ends
with a quote character; an edit applied at that range therefore replaces the
quotes along with the content (which is why the quickfix inserts its
replacement text already quote-wrapped). -/
theorem C1_range_includes_quotes (src : List Char) (decls : List TSDecl)
    (hwf : ∀ d ∈ decls, ∀ n ∈ d.strings, StringNodeWF src n) :
    ∀ lit ∈ LspParser.parse_code_tree decls src,
      lit.range.start_byte + 2 ≤ lit.range.end_byte ∧
      (strSlice src lit.range.start_byte lit.range.end_byte).head? = some '"' ∧
      (strSlice src lit.range.start_byte lit.range.end_byte).getLast? = some '"' := by
  intro lit hlit
  rw [mem_parse_code_tree] at hlit
  obtain ⟨d, hd, hname, n, hn, rfl⟩ := hlit
  obtain ⟨h1, h2, h3, h4⟩ := hwf d hd n hn
  exact ⟨h2, h3, h4⟩

/-- Witness for C1: the amended statement evaluated on the Scenario A tree at
the first extracted literal. -/
theorem C1_witness :
    (24 : Nat) + 2 ≤ 31 ∧
    (strSlice srcA 24 31).head? = some '"' ∧
    (strSlice srcA 24 31).getLast? = some '"' :=
  C1_range_includes_quotes srcA declsA (by decide)
    ⟨("dir_a".toList), ⟨24, 31, ⟨0, 24⟩, ⟨0, 31⟩⟩⟩ (by decide)

/-- Counterexample to C1 as stated: on the Scenario A text the first
extracted literal has text dir_a, which occupies bytes 25 to 30 (the enclosed
content), but the extracted range is bytes and columns 24 to 31 — the whole
literal, whose slice is the quoted text, not the content; so the range does
not span exactly the characters between the quote marks. -/
theorem C1_counterexample :
    ((LspParser.parse_code_tree declsA srcA).map
      (fun p => (p.range.start_byte, p.range.end_byte))) = [(24, 31), (33, 40)] ∧
    ((LspParser.parse_code_tree declsA srcA).map
      (fun p => (p.range.start_point.column, p.range.end_point.column))) =
      [(24, 31), (33, 40)] ∧
    (LspParser.parse_code_tree declsA srcA).map (fun p => p.text) =
      ["dir_a".toList, "dir_b".toList] ∧
    strSlice srcA 24 31 = ('"' :: ("dir_a".toList)) ++ ['"'] ∧
    strSlice srcA 24 31 ≠ ("dir_a".toList) ∧
    strSlice srcA 25 30 = ("dir_a".toList) := by decide

/-- Counterexample to C5 as stated: when the external parser yields no tree,
parse_code does not return an empty sequence — the unwrap on the parse result
panics. -/
theorem C5_counterexample :
    LspParser.parse_code none (("export const folders = [];").toList) =
      .error .unwrapNone ∧
    LspParser.parse_code none (("export const folders = [];").toList) ≠ .ok [] := by
  decide

/-- C5 (amended): if the parser cannot produce a tree, parse_code panics (the
unwrap on the parse result), and the panic aborts the calling request — both
the diagnostics pass and a completion request on such a document fail with
the panic instead of degrading to an empty extraction. -/
theorem C5_parse_failure_panics (src : List Char) :
    LspParser.parse_code none src = .error .unwrapNone ∧
    (∀ rd dir, Backend.perform_diagnostics none src rd dir = .error .unwrapNone) ∧
    (∀ pos rd, Backend.completion (some (src, none)) pos rd = .error .unwrapNone) :=
  ⟨rfl, fun _ _ => rfl, fun _ _ => rfl⟩

/-- Counterexample to C3 as stated: with candidates dir_a and dir_c, suggest
on dir_b and limit 15 returns the empty list — neither candidate is returned,
because dir_b is not a fuzzy-subsequence match of either name and zero-match
candidates are excluded. -/
theorem C3_counterexample :
    Backend.get_best_matches fuzzy_match ("dir_b".toList)
      ["dir_a".toList, "dir_c".toList] 15 = [] ∧
    ¬ (("dir_a".toList) ∈ Backend.get_best_matches fuzzy_match ("dir_b".toList)
        ["dir_a".toList, "dir_c".toList] 15 ∧
       ("dir_c".toList) ∈ Backend.get_best_matches fuzzy_match ("dir_b".toList)
        ["dir_a".toList, "dir_c".toList] 15) := by decide

/-- C3 (amended): Scenario A — on the Scenario A text with candidates dir_a
and dir_c, diagnose produces exactly one diagnostic, flagging dir_b with data
payload dir_b at the literal's node range (columns 33 to 40 of row 0), and
suggest on dir_b with those candidates and limit 15 returns no results. -/
theorem C3_scenario_a :
    (Backend.perform_diagnostics (some declsA) srcA rdAC ("suggestions".toList)).map
      (fun diags => diags.map (fun d => (d.data, d.range))) =
      Except.ok [(some (JsonValue.str ("dir_b".toList)), ⟨⟨0, 33⟩, ⟨0, 40⟩⟩)] ∧
    Backend.get_best_matches fuzzy_match ("dir_b".toList)
      ["dir_a".toList, "dir_c".toList] 15 = [] := by decide

/-- C9: a directory-listing failure yields the empty candidate set — on any
error get_files returns the empty list, and diagnostics, completion and
quickfix each behave exactly as with an empty successful listing; the error
is swallowed and never propagated, and in particular the diagnostics pass
still answers Ok. -/
theorem C9_listing_error_swallowed (e : Nat) :
    Backend.get_files (.error e) = [] ∧
    (∀ pr src dir, Backend.perform_diagnostics pr src (.error e) dir =
      Backend.perform_diagnostics pr src (.ok []) dir) ∧
    (∀ stored pos, Backend.completion stored pos (.error e) =
      Backend.completion stored pos (.ok [])) ∧
    (∀ diags, Backend.code_action diags (.error e) =
      Backend.code_action diags (.ok [])) ∧
    (∀ decls src dir, ∃ l,
      Backend.perform_diagnostics (some decls) src (.error e) dir = .ok l) :=
  ⟨rfl, fun _ _ _ => rfl, fun _ _ => rfl, fun _ => rfl, fun _ _ _ => ⟨_, rfl⟩⟩

end TsmLs

namespace TsmLs

/-- C2: diagnose emits exactly one diagnostic per extracted literal whose
text is absent from the candidate set — the number of diagnostics equals the
number of absent literals, every diagnostic carries the data payload and
range of an absent literal, literals present in the candidate set produce no
diagnostic (all present gives the empty list), and exactly one absent literal
gives exactly one diagnostic. -/
theorem C2_diagnose_per_literal (decls : List TSDecl) (src : List Char)
    (rd : ReadDirResult) (dir : List Char) :
    ∃ diags, Backend.perform_diagnostics (some decls) src rd dir = .ok diags ∧
      diags.length = (LspParser.parse_code_tree decls src).countP
        (fun u => !(Backend.get_files rd).contains u.text) ∧
      (∀ dg ∈ diags, ∃ u ∈ LspParser.parse_code_tree decls src,
        u.text ∉ Backend.get_files rd ∧
        dg.data = some (.str u.text) ∧ dg.range = MyRange.toLspRange u.range) ∧
      ((∀ u ∈ LspParser.parse_code_tree decls src, u.text ∈ Backend.get_files rd) →
        diags = []) ∧
      ((LspParser.parse_code_tree decls src).countP
        (fun u => !(Backend.get_files rd).contains u.text) = 1 → diags.length = 1) := by
  refine ⟨_, rfl, ?_, ?_, ?_, ?_⟩
  · simp [List.countP_eq_length_filter]
  · intro dg hdg
    rw [List.mem_map] at hdg
    obtain ⟨u, hu, rfl⟩ := hdg
    rw [List.mem_filter] at hu
    refine ⟨u, hu.1, ?_, rfl, rfl⟩
    have := hu.2
    simp at this
    exact this
  · intro hall
    have : (LspParser.parse_code_tree decls src).filter
        (fun u => !(Backend.get_files rd).contains u.text) = [] := by
      rw [List.filter_eq_nil_iff]
      intro u hu
      simp [hall u hu]
    rw [this]
    rfl
  · intro h1
    simp [List.countP_eq_length_filter] at h1 ⊢
    exact h1

/-- Witness for C2: the statement evaluated on the Scenario A text and the
dir_a, dir_c candidate listing. -/
theorem C2_witness :
    ∃ diags, Backend.perform_diagnostics (some declsA) srcA rdAC ("sug".toList) = .ok diags ∧
      diags.length = (LspParser.parse_code_tree declsA srcA).countP
        (fun u => !(Backend.get_files rdAC).contains u.text) ∧
      (∀ dg ∈ diags, ∃ u ∈ LspParser.parse_code_tree declsA srcA,
        u.text ∉ Backend.get_files rdAC ∧
        dg.data = some (.str u.text) ∧ dg.range = MyRange.toLspRange u.range) ∧
      ((∀ u ∈ LspParser.parse_code_tree declsA srcA, u.text ∈ Backend.get_files rdAC) →
        diags = []) ∧
      ((LspParser.parse_code_tree declsA srcA).countP
        (fun u => !(Backend.get_files rdAC).contains u.text) = 1 → diags.length = 1) :=
  C2_diagnose_per_literal declsA srcA rdAC ("sug".toList)

/-- C7: for every scoring primitive, query and candidate list, the output of
get_best_matches has length at most the limit, contains only candidates the
primitive actually matches (non-matching candidates, for which the primitive
yields no score, are excluded), and is sorted in non-increasing order of the
matched scores. -/
theorem C7_suggest_sorted_bounded (m : List Char → List Char → Option Int)
    (input : List Char) (cands : List (List Char)) (n : Nat) :
    (Backend.get_best_matches m input cands n).length ≤ n ∧
    (∀ s ∈ Backend.get_best_matches m input cands n, (m s input).isSome = true) ∧
    (Backend.get_best_matches m input cands n).Pairwise
      (fun a b => (m b input).getD 0 ≤ (m a input).getD 0) := by
  have e : Backend.get_best_matches m input cands n =
      (((cands.filterMap (fun s => (m s input).map (fun score => (s, score)))).insertionSort
        (fun a b => b.2 ≤ a.2)).take n).map (fun p => p.1) := rfl
  set mws := cands.filterMap (fun s => (m s input).map (fun score => (s, score))) with hmws
  have key : ∀ p ∈ mws, m p.1 input = some p.2 := by
    intro p hp
    rw [hmws, List.mem_filterMap] at hp
    obtain ⟨s, _, hf⟩ := hp
    cases hms : m s input with
    | none => rw [hms] at hf; cases hf
    | some sc =>
      rw [hms] at hf
      cases hf
      simpa using hms
  have hsorted : (mws.insertionSort (fun a b => b.2 ≤ a.2)).Pairwise
      (fun a b : List Char × Int => b.2 ≤ a.2) := by
    haveI : IsTotal (List Char × Int) (fun a b => b.2 ≤ a.2) := ⟨fun a b => le_total b.2 a.2⟩
    haveI : IsTrans (List Char × Int) (fun a b => b.2 ≤ a.2) :=
      ⟨fun _ _ _ h1 h2 => le_trans h2 h1⟩
    exact List.sorted_insertionSort _ mws
  have hperm := List.perm_insertionSort (fun a b : List Char × Int => b.2 ≤ a.2) mws
  have hmemtake : ∀ p, p ∈ (mws.insertionSort (fun a b => b.2 ≤ a.2)).take n → p ∈ mws := by
    intro p hp
    exact hperm.mem_iff.mp (List.mem_of_mem_take hp)
  refine ⟨?_, ?_, ?_⟩
  · rw [e, List.length_map, List.length_take]
    exact min_le_left _ _
  · intro s hs
    rw [e, List.mem_map] at hs
    obtain ⟨p, hp, rfl⟩ := hs
    rw [key p (hmemtake p hp)]
    rfl
  · rw [e, List.pairwise_map]
    have htake : ((mws.insertionSort (fun a b => b.2 ≤ a.2)).take n).Pairwise
        (fun a b : List Char × Int => b.2 ≤ a.2) :=
      hsorted.sublist (List.take_sublist _ _)
    refine htake.imp_of_mem ?_
    intro p q hp hq hr
    rw [key p (hmemtake p hp), key q (hmemtake q hq)]
    exact hr

/-- Witness for C7: the statement evaluated at the modelled fuzzy matcher,
query dir_b, candidates dir_a and dir_c, and limit 15. -/
theorem C7_witness :
    (Backend.get_best_matches fuzzy_match ("dir_b".toList)
      ["dir_a".toList, "dir_c".toList] 15).length ≤ 15 ∧
    (∀ s ∈ Backend.get_best_matches fuzzy_match ("dir_b".toList)
      ["dir_a".toList, "dir_c".toList] 15, (fuzzy_match s ("dir_b".toList)).isSome = true) ∧
    (Backend.get_best_matches fuzzy_match ("dir_b".toList)
      ["dir_a".toList, "dir_c".toList] 15).Pairwise
      (fun a b => (fuzzy_match b ("dir_b".toList)).getD 0 ≤
        (fuzzy_match a ("dir_b".toList)).getD 0) :=
  C7_suggest_sorted_bounded fuzzy_match ("dir_b".toList) ["dir_a".toList, "dir_c".toList] 15

/-- C8: extraction concatenates the literals of all matching declarations in
document order — it is a homomorphism for appending declaration lists, and
its length is the total number of string elements over all declarators named
folders (so multiple declarations with the same identifier all contribute);
and diagnose preserves that order: the ranges of its diagnostics form a
sublist of the ranges of the extracted literals, in the same order. -/
theorem C8_document_order (src : List Char) (d1 d2 decls : List TSDecl)
    (rd : ReadDirResult) (dir : List Char) :
    LspParser.parse_code_tree (d1 ++ d2) src =
      LspParser.parse_code_tree d1 src ++ LspParser.parse_code_tree d2 src ∧
    (LspParser.parse_code_tree decls src).length =
      ((decls.filter (fun d => d.name = ("folders".toList))).map
        (fun d => d.strings.length)).sum ∧
    (∀ diags, Backend.perform_diagnostics (some decls) src rd dir = .ok diags →
      (diags.map (fun dg => dg.range)).Sublist
        ((LspParser.parse_code_tree decls src).map
          (fun u => MyRange.toLspRange u.range))) := by
  refine ⟨?_, ?_, ?_⟩
  · rw [parse_code_tree_eq, parse_code_tree_eq, parse_code_tree_eq, List.flatMap_append]
  · rw [parse_code_tree_eq]
    induction decls with
    | nil => rfl
    | cons d ds ih =>
      rw [List.flatMap_cons, List.length_append, ih]
      by_cases h : d.name = ("folders".toList)
      · rw [if_pos h, List.filter_cons_of_pos (by simpa using h), List.map_cons,
          List.sum_cons, List.length_map]
      · rw [if_neg h, List.filter_cons_of_neg (by simpa using h)]
        simp
  · intro diags h
    have hX := Except.ok.inj h
    rw [← hX, List.map_map]
    exact ((LspParser.parse_code_tree decls src).filter_sublist.map _)

/-- Witness for C8: the order-preservation conclusion discharged on the
Scenario A text, where the single diagnostic's range appears among the
literal ranges. -/
theorem C8_witness :
    ([({ range := ⟨⟨0, 33⟩, ⟨0, 40⟩⟩, severity := some severity_error,
         code := some ("100".toList), source := some ("tsm-language-server".toList),
         message := ("'".toList) ++ ("dir_b".toList) ++
           ("' is not a valid folder, valid folders are those in '".toList) ++
           ("sug".toList) ++ ("'".toList),
         data := some (.str ("dir_b".toList)) } : Diagnostic)].map
      (fun dg => dg.range)).Sublist
      ((LspParser.parse_code_tree declsA srcA).map
        (fun u => MyRange.toLspRange u.range)) :=
  (C8_document_order srcA declsA declsA declsA rdAC ("sug".toList)).2.2 _ (by decide)

end TsmLs

namespace TsmLs

theorem mapM_to_completionitem (l : List (List Char)) :
    l.mapM (fun name => unwrapO (Backend.to_completionitem name)) =
      .ok (l.map (fun name =>
        ({ label := name, detail := some ("Directory".toList),
           kind := some completion_item_kind_folder,
           insert_text := some name } : CompletionItem))) := by
  induction l with
  | nil => rfl
  | cons x xs ih =>
    rw [List.mapM_cons, ih]
    rfl

/-- C4 (amended): completion answers items exactly when the cursor lies
strictly inside some extracted literal's range (row equal to the range's
start row, column strictly between the range's start and end columns): when
triggered it returns one item per candidate-set entry whose label is the bare
name and whose insertion text is the bare name as well (not quote-wrapped);
when not triggered it returns none. -/
theorem C4_completion_trigger (src : List Char) (decls : List TSDecl)
    (pos : Position) (rd : ReadDirResult) :
    ∃ r, Backend.completion (some (src, some decls)) pos rd = .ok r ∧
      ((∃ lit ∈ LspParser.parse_code_tree decls src,
          lit.range.start_point.row = pos.line ∧
          lit.range.start_point.column < pos.character ∧
          lit.range.end_point.column > pos.character) →
        r = some ((Backend.get_files rd).map (fun name =>
          { label := name, detail := some ("Directory".toList),
            kind := some completion_item_kind_folder, insert_text := some name }))) ∧
      ((¬ ∃ lit ∈ LspParser.parse_code_tree decls src,
          lit.range.start_point.row = pos.line ∧
          lit.range.start_point.column < pos.character ∧
          lit.range.end_point.column > pos.character) → r = none) := by
  have e : Backend.completion (some (src, some decls)) pos rd =
      match (LspParser.parse_code_tree decls src).find? (fun item =>
        decide (item.range.start_point.row = pos.line ∧
          item.range.start_point.column < pos.character ∧
          item.range.end_point.column > pos.character)) with
      | none => Except.ok none
      | some _ => (do
          let completions ← (Backend.get_files rd).mapM
            (fun name => unwrapO (Backend.to_completionitem name))
          pure (some completions) : Except PanicE (Option (List CompletionItem))) := rfl
  rcases hf : (LspParser.parse_code_tree decls src).find? (fun item =>
      decide (item.range.start_point.row = pos.line ∧
        item.range.start_point.column < pos.character ∧
        item.range.end_point.column > pos.character)) with _ | it
  · refine ⟨none, by rw [e, hf], ?_, fun _ => rfl⟩
    intro hex
    obtain ⟨lit, hlit, h1, h2, h3⟩ := hex
    rw [List.find?_eq_none] at hf
    have := hf lit hlit
    simp only [decide_eq_true_eq] at this
    exact (this ⟨h1, h2, h3⟩).elim
  · refine ⟨some ((Backend.get_files rd).map (fun name =>
      { label := name, detail := some ("Directory".toList),
        kind := some completion_item_kind_folder, insert_text := some name })),
      ?_, fun _ => rfl, ?_⟩
    · rw [e, hf, mapM_to_completionitem]
      rfl
    · intro hne
      have hmem := List.mem_of_find?_eq_some hf
      have hpred := List.find?_some hf
      simp only [decide_eq_true_eq] at hpred
      exact (hne ⟨it, hmem, hpred.1, hpred.2.1, hpred.2.2⟩).elim

/-- Witness for C4: the statement evaluated on the Scenario A text with the
cursor at row 0 column 26, inside the first literal. -/
theorem C4_witness :
    ∃ r, Backend.completion (some (srcA, some declsA)) ⟨0, 26⟩ rdAC = .ok r ∧
      ((∃ lit ∈ LspParser.parse_code_tree declsA srcA,
          lit.range.start_point.row = (0 : Nat) ∧
          lit.range.start_point.column < (26 : Nat) ∧
          lit.range.end_point.column > (26 : Nat)) →
        r = some ((Backend.get_files rdAC).map (fun name =>
          { label := name, detail := some ("Directory".toList),
            kind := some completion_item_kind_folder, insert_text := some name }))) ∧
      ((¬ ∃ lit ∈ LspParser.parse_code_tree declsA srcA,
          lit.range.start_point.row = (0 : Nat) ∧
          lit.range.start_point.column < (26 : Nat) ∧
          lit.range.end_point.column > (26 : Nat)) → r = none) :=
  C4_completion_trigger srcA declsA ⟨0, 26⟩ rdAC

/-- Counterexample to C4 as stated: with the cursor inside the first literal
and a single candidate dir_a, the returned item's insertion text is the bare
name dir_a, which is not the name wrapped in quote characters. -/
theorem C4_counterexample :
    Backend.completion (some (srcA, some declsA)) ⟨0, 26⟩ (.ok [.ok ("dir_a".toList)]) =
      .ok (some [{ label := ("dir_a".toList), detail := some ("Directory".toList),
                   kind := some completion_item_kind_folder,
                   insert_text := some ("dir_a".toList) }]) ∧
    some ("dir_a".toList) ≠ some (('"' :: ("dir_a".toList)) ++ ['"']) := by decide

end TsmLs

namespace TsmLs

theorem fuzzy_match_empty_pattern (s : List Char) :
    fuzzy_match s ("".toList) =
      some (Int.ofNat (2 * ("".toList).length) - Int.ofNat s.length) := by
  cases s <;> rfl

theorem length_filterMap_of_all_some {A B : Type} (f : A → Option B) (l : List A)
    (h : ∀ a, (f a).isSome = true) : (l.filterMap f).length = l.length := by
  induction l with
  | nil => rfl
  | cons x xs ih =>
    rw [List.filterMap_cons]
    cases hfx : f x with
    | none => exact absurd (hfx ▸ h x) (by simp)
    | some b =>
      rw [List.length_cons, ih]
      rfl

theorem length_get_best_matches_empty (folders : List (List Char)) :
    (Backend.get_best_matches fuzzy_match ("".toList) folders 15).length =
      min 15 folders.length := by
  have e : Backend.get_best_matches fuzzy_match ("".toList) folders 15 =
      (((folders.filterMap (fun s =>
        (fuzzy_match s ("".toList)).map (fun score => (s, score)))).insertionSort
        (fun a b => b.2 ≤ a.2)).take 15).map (fun p => p.1) := rfl
  rw [e, List.length_map, List.length_take, List.length_insertionSort,
    length_filterMap_of_all_some _ _ (fun a => by rw [fuzzy_match_empty_pattern]; rfl)]

theorem code_action_singleton_eval (dg : Diagnostic) (s : List Char) (rd : ReadDirResult)
    (hs : (dg.data.getD (.str ("".toList))).as_str = some s) :
    Backend.code_action [dg] rd =
      .ok (some ((Backend.get_best_matches fuzzy_match s (Backend.get_files rd) 15).map
        (Backend.quickfix_action dg))) := by
  have hs2 : (dg.data.getD (JsonValue.str [])).as_str = some s := hs
  simp [Backend.code_action, Backend.code_action_loop, unwrapO, hs2]
  rfl

/-- C6 (amended): a quickfix request over a diagnostic whose data payload is
missing treats the payload as the empty string and succeeds with one action
per matching candidate — the empty query matches every candidate, so up to
the limit of 15 actions are produced, and with a non-empty candidate set the
action list is not empty (not zero suggestions); a diagnostic whose data
payload is present but not a string makes the handler panic on the unwrap,
failing the request instead of yielding zero suggestions. -/
theorem C6_data_payload (dg : Diagnostic) (rd : ReadDirResult) :
    (dg.data = none → ∃ acts, Backend.code_action [dg] rd = .ok (some acts) ∧
      acts.length = min 15 (Backend.get_files rd).length ∧
      ((Backend.get_files rd).length ≠ 0 → acts ≠ [])) ∧
    (dg.data = some .nonString → Backend.code_action [dg] rd = .error .unwrapNone) := by
  constructor
  · intro h
    have hs : (dg.data.getD (.str ("".toList))).as_str = some ("".toList) := by
      rw [h]; rfl
    refine ⟨_, code_action_singleton_eval dg ("".toList) rd hs, ?_, ?_⟩
    · rw [List.length_map, length_get_best_matches_empty]
    · intro hnz hniln
      have hlen : ((Backend.get_best_matches fuzzy_match ("".toList)
          (Backend.get_files rd) 15).map (Backend.quickfix_action dg)).length =
          min 15 (Backend.get_files rd).length := by
        rw [List.length_map, length_get_best_matches_empty]
      rw [hniln] at hlen
      simp at hlen
      omega
  · intro h
    obtain ⟨rg, sev, cd, sf, msg, datav⟩ := dg
    have h2 : datav = some .nonString := h
    subst h2
    simp [Backend.code_action, Backend.code_action_loop, unwrapO, JsonValue.as_str]
    rfl

/-- Witness for C6: both parts discharged at a concrete diagnostic and a
one-entry candidate listing. -/
theorem C6_witness :
    (∃ acts, Backend.code_action
      [⟨⟨⟨0, 24⟩, ⟨0, 31⟩⟩, some severity_error, none, none, [], none⟩]
      (.ok [.ok ("dir_a".toList)]) = .ok (some acts) ∧
      acts.length = min 15 (Backend.get_files (.ok [.ok ("dir_a".toList)])).length ∧
      ((Backend.get_files (.ok [.ok ("dir_a".toList)])).length ≠ 0 → acts ≠ [])) ∧
    Backend.code_action
      [⟨⟨⟨0, 24⟩, ⟨0, 31⟩⟩, some severity_error, none, none, [], some .nonString⟩]
      (.ok [.ok ("dir_a".toList)]) = .error .unwrapNone :=
  ⟨(C6_data_payload _ _).1 rfl, (C6_data_payload _ _).2 rfl⟩

/-- Counterexample to C6 as stated: a diagnostic with a non-string data
payload fails the whole request with a panic rather than yielding zero
suggestions, and a diagnostic with a missing data payload yields one action
for the one-candidate listing rather than zero. -/
theorem C6_counterexample :
    Backend.code_action
      [{ range := ⟨⟨0, 24⟩, ⟨0, 31⟩⟩, severity := some severity_error, code := none,
         source := none, message := [], data := some .nonString }]
      (.ok [.ok ("dir_a".toList)]) = .error .unwrapNone ∧
    (Backend.code_action
      [{ range := ⟨⟨0, 24⟩, ⟨0, 31⟩⟩, severity := some severity_error, code := none,
         source := none, message := [], data := none }]
      (.ok [.ok ("dir_a".toList)])).map
      (fun o => o.map (fun acts => acts.length)) = .ok (some 1) := by decide

end TsmLs
